import Mathlib

set_option maxRecDepth 8000

/-!
Verification of `win_installer.py`, the script that coordinates building an
executable Windows installer for Mu with pynsist.

The script is sequential shell-out glue; we embed it shallowly:

* strings are `String`; the Python partition of a string at `==` is modelled
  by `partitionName` / `partitionVersion` over the character list;
* external effects (subprocess exit statuses, the decoded `pip freeze` output,
  wheel availability at PyPI, network success flags) are fields of a `RunEnv`
  record; the pipeline `run` is a pure function from that record to a trace of
  steps together with an optional propagated error;
* `subprocess.run(...)` without a check argument records the exit status and
  continues regardless; `subprocess.check_output` raises on a non-zero exit,
  which the embedding models as a propagated `RunError`;
* the iteration order of the Python set difference built in `packages_from`
  is interpreter-dependent (string hashing is randomised per process), so the
  embedding takes the chosen enumeration as an explicit input, constrained by
  `SetDiffEnum` which states exactly what Python guarantees about it.
-/

namespace WinInstaller

/-- The part of `s.partition sep` before the separator, for the two-character
separator `==`: all characters up to the first occurrence of `==`, or the whole
string when `==` does not occur. -/
def partitionBeforeChars : List Char → List Char
  | [] => []
  | c :: rest =>
    if c = '=' ∧ rest.head? = some '=' then []
    else c :: partitionBeforeChars rest

/-- The part of `s.partition sep` after the separator, for the separator `==`:
all characters after the first occurrence of `==`, or empty when `==` does not
occur. -/
def partitionAfterChars : List Char → List Char
  | [] => []
  | c :: rest =>
    if c = '=' ∧ rest.head? = some '=' then rest.tail
    else partitionAfterChars rest

/-- The remainder dropped by the partition at `==`: the first occurrence of
`==` together with everything after it, or empty when `==` does not occur. -/
def partitionRestChars : List Char → List Char
  | [] => []
  | c :: rest =>
    if c = '=' ∧ rest.head? = some '=' then c :: rest
    else partitionRestChars rest

/-- Does the character list contain two consecutive `=` characters, i.e. an
occurrence of the separator `==`? -/
def hasDoubleEq : List Char → Bool
  | [] => false
  | c :: rest =>
    if c = '=' ∧ rest.head? = some '=' then true
    else hasDoubleEq rest

/-- Component 0 of the Python partition of a requirement at `==`: the package
name of a pinned `name==version` requirement line. -/
def partitionName (s : String) : String :=
  String.mk (partitionBeforeChars s.data)

/-- Component 2 of the Python partition of a requirement at `==`: the version
of a pinned `name==version` requirement line. -/
def partitionVersion (s : String) : String :=
  String.mk (partitionAfterChars s.data)

/-- Splitting a character list at every occurrence of the separator
character; `acc` holds the characters of the current fragment in reverse. -/
def splitOnCharAux (sep : Char) : List Char → List Char → List String
  | [], acc => [String.mk acc.reverse]
  | c :: rest, acc =>
    if c = sep then String.mk acc.reverse :: splitOnCharAux sep rest []
    else splitOnCharAux sep rest (c :: acc)

/-- Python `s.split(sep)` for a one-character separator: the fragments between
occurrences of the separator, with empty fragments kept. -/
def splitOnChar (sep : Char) (s : String) : List String :=
  splitOnCharAux sep s.data []

/-- Does the character list `s` begin with the character list `p`? -/
def leadsWith : List Char → List Char → Bool
  | _, [] => true
  | [], _ :: _ => false
  | c :: s, d :: p => decide (c = d) && leadsWith s p

/-- Python `s.endswith(suffix)`. -/
def strEndsWith (s suffix : String) : Bool :=
  leadsWith s.data.reverse suffix.data.reverse

/-- Python `s.startswith(pre)`. -/
def strBeginsWith (s pre : String) : Bool :=
  leadsWith s.data pre.data

/-- Python `str.splitlines` restricted to the newline terminator: split on
newline characters, without a trailing empty fragment for a trailing
newline. -/
def splitlines (text : String) : List String :=
  if text.data = [] then []
  else if text.data.getLast? = some '\n' then
    splitOnChar '\n' (String.mk text.data.dropLast)
  else splitOnChar '\n' text

/-- Constant `URL` from the source: the release-download base address. -/
def URL : String := "https://github.com/mu-editor/mu_tkinter/releases/download/"

/-- Constant `ASSETS` from the source: the bitness-keyed mapping of asset
bundles, embedded as an association list. -/
def ASSETS : List (String × String) :=
  [("32", URL ++ "0.3/pynsist_tkinter_3.6_32bit.zip"),
   ("64", URL ++ "0.3/pynsist_tkinter_3.6_64bit.zip")]

/-- Joining one path component, with the separator modelled as `/`. -/
def pathJoin (a b : String) : String := a ++ "/" ++ b

/-- The last `/`-separated component of a URL, used by `download_file` as the
local file name. -/
def lastComponent (url : String) : String :=
  (splitOnChar '/' url).getLastD ""

/-- Function `wheels_in`: walk the requirement list in order, query the index
for each `name==version` pin (the query is abstracted as the oracle
`hasWheel`), and keep exactly the requirement strings whose release list holds
a wheel-type artifact. -/
def wheels_in (hasWheel : String → String → Bool) : List String → List String
  | [] => []
  | requirement :: rest =>
    if hasWheel (partitionName requirement) (partitionVersion requirement) then
      requirement :: wheels_in hasWheel rest
    else
      wheels_in hasWheel rest

/-- What Python guarantees about iterating the set difference
`set(requirements) - set(wheels)`: each element appears exactly once, and the
elements are exactly the requirement strings that are not wheel strings. The
order itself is interpreter-dependent and is therefore a parameter of the
embedding. -/
def SetDiffEnum (requirements wheels enum : List String) : Prop :=
  enum.Nodup ∧ ∀ s : String, s ∈ enum ↔ (s ∈ requirements ∧ s ∉ wheels)

/-- Function `packages_from`: given the enumeration of the set difference of
requirements and wheels
actually produced by the interpreter, return the bare package name
(component 0 of the partition at `==`) of each element, in that iteration
order. -/
def packages_from (psetEnum : List String) : List String :=
  psetEnum.map partitionName

/-- Python `sep.join(xs)`. -/
def joinWith (sep : String) : List String → String
  | [] => ""
  | [x] => x
  | x :: y :: rest => x ++ sep ++ joinWith sep (y :: rest)

/-- The indentation join (a newline and four spaces) used for the
`pypi_wheels` and `packages` template slots. -/
def joinIndent (xs : List String) : String :=
  joinWith "\n    " xs

/-- Rendering of `PYNSIST_CFG_TEMPLATE`: the fixed pynsist configuration text
with the seven placeholders substituted. -/
def pynsistCfgPayload (version icon_file license_file bitness pypi_wheels
    packages installer_name : String) : String :=
  "\n[Application]\nname=Mu\nversion=" ++ version ++
  "\nentry_point=mu.app:run\nicon=" ++ icon_file ++
  "\npublisher=Nicholas H.Tollervey\nlicense_file=" ++ license_file ++
  "\n\n[Command mu-debug]\nentry_point=mu.app:debug" ++
  "\n\n[Command pgzrun]\nentry_point=pgzero.runner:main" ++
  "\n\n[Python]\nversion=3.6.3\nbitness=" ++ bitness ++
  "\nformat=bundled" ++
  "\n\n[Include]\npypi_wheels=\n    " ++ pypi_wheels ++
  "\n\npackages=\n    tkinter\n    _tkinter\n    turtle\n    " ++ packages ++
  "\n\nfiles=lib" ++
  "\n\n[Build]\ninstaller_name=" ++ installer_name ++ "\n"

/-- The installer file name computed in `run` by the bitness-dependent
formatted string: name, version and bitness joined as `name_version_winB.exe`. -/
def installerNameOf (title version bitness : String) : String :=
  title ++ "_" ++ version ++ "_win" ++ bitness ++ ".exe"

/-- The external circumstances a single pipeline invocation can meet: the
temporary directory name, the descriptor values read by `about_dict`, the exit
statuses of the five spawned subprocesses, the decoded `pip freeze` text,
wheel availability at PyPI, success flags for the fallible network,
zip-extraction and artifact-copy operations, and the set-iteration order the
interpreter happens to use in `packages_from`. -/
structure RunEnv where
  workDir : String
  title : String
  version : String
  venvExit : Int
  installExit : Int
  freezeExit : Int
  freezeText : String
  hasWheel : String → String → Bool
  wheelLookupOk : Bool
  psetEnum : List String → List String → List String
  downloadOk : Bool
  unzipOk : Bool
  pynsistInstallExit : Int
  pynsistExit : Int
  copyOk : Bool

/-- The exceptions the pipeline can propagate: `CalledProcessError` from
`subprocess.check_output`, a network error from `requests`/`yarg`, `KeyError`
from the `ASSETS` lookup, a zip-extraction error, and `FileNotFoundError` from
the final `shutil.copy`. -/
inductive RunError where
  | calledProcessError (exitStatus : Int)
  | networkError
  | keyError
  | zipError
  | fileNotFound
deriving DecidableEq, Repr

/-- One observable step of the pipeline. Steps that spawn a subprocess with
`subprocess.run` record the exit status the child returned; the surrounding
code never inspects it. -/
inductive Step where
  | createVenv (exitStatus : Int)
  | installMu (exitStatus : Int)
  | pipFreeze
  | wheelCheck
  | writeCfg (payload : String)
  | download (url : String)
  | unzipAsset (file : String)
  | installPynsist (exitStatus : Int)
  | runPynsist (exitStatus : Int)
  | copyInstaller (src dst : String)
  | removeTempDir
deriving DecidableEq, Repr

/-- In `run`: the filtered `pip freeze` output, keeping every line whose
package name differs from the applications own package name. -/
def requirementsOf (freezeLines : List String) (title : String) : List String :=
  freezeLines.filter (fun line => partitionName line ≠ title)

/-- The pynsist configuration text the pipeline renders, as a function of the
environment and the bitness/repository arguments. -/
def pipelinePayload (env : RunEnv) (bitness repoRoot : String) : String :=
  let requirements := requirementsOf (splitlines env.freezeText) env.title
  let wheels := wheels_in env.hasWheel requirements
  let packages := packages_from (env.psetEnum requirements wheels)
  pynsistCfgPayload env.version
    (pathJoin (pathJoin (pathJoin repoRoot "package") "icons") "win_icon.ico")
    (pathJoin repoRoot "LICENSE")
    bitness
    (joinIndent wheels)
    (joinIndent packages)
    (installerNameOf env.title env.version bitness)

/-- The body of the `with tempfile.TemporaryDirectory()` block of `run`:
the steps executed in order, stopping at the first raised exception, which is
returned alongside. `subprocess.run` steps (venv creation, mu install, pynsist
install, pynsist invocation) record a non-zero exit status but never raise;
`subprocess.check_output` in `pip_freeze` raises on a non-zero exit. -/
def runBody (env : RunEnv) (bitness repoRoot : String) :
    List Step × Option RunError :=
  let s2 := [Step.createVenv env.venvExit, Step.installMu env.installExit]
  if env.freezeExit ≠ 0 then
    (s2 ++ [Step.pipFreeze], some (RunError.calledProcessError env.freezeExit))
  else
    let s3 := s2 ++ [Step.pipFreeze, Step.wheelCheck]
    if env.wheelLookupOk = false then (s3, some RunError.networkError)
    else
      let s4 := s3 ++ [Step.writeCfg (pipelinePayload env bitness repoRoot)]
      match ASSETS.lookup bitness with
      | none => (s4, some RunError.keyError)
      | some url =>
        if env.downloadOk = false then
          (s4 ++ [Step.download url], some RunError.networkError)
        else
          let s6 := s4 ++ [Step.download url,
            Step.unzipAsset (pathJoin env.workDir (lastComponent url))]
          if env.unzipOk = false then (s6, some RunError.zipError)
          else
            let s8 := s6 ++ [Step.installPynsist env.pynsistInstallExit,
              Step.runPynsist env.pynsistExit,
              Step.copyInstaller
                (pathJoin (pathJoin (pathJoin env.workDir "build") "nsis")
                  (installerNameOf env.title env.version bitness)) "."]
            if env.copyOk = false then (s8, some RunError.fileNotFound)
            else (s8, none)

/-- Function `run`: the `with` statement guarantees that the temporary working
directory is removed on every exit path, so the cleanup step follows the body
trace whether or not an exception is propagating. -/
def run (env : RunEnv) (bitness repoRoot : String) :
    List Step × Option RunError :=
  ((runBody env bitness repoRoot).1 ++ [Step.removeTempDir],
   (runBody env bitness repoRoot).2)

/-- The trace of steps a pipeline invocation performs. -/
def runTrace (env : RunEnv) (bitness repoRoot : String) : List Step :=
  (run env bitness repoRoot).1

/-- The exception, if any, that a pipeline invocation propagates to its
caller. -/
def runError (env : RunEnv) (bitness repoRoot : String) : Option RunError :=
  (run env bitness repoRoot).2

/-- Python dirname modelled coarsely with the separator `/`: everything
before the last separator. No claim depends on path normalisation. -/
def dirname (p : String) : String :=
  joinWith "/" (splitOnChar '/' p).dropLast

/-- Python abspath relative to the current working directory, modelled
coarsely with the separator `/`. No claim depends on path normalisation. -/
def abspath (cwd p : String) : String :=
  if p = "" then cwd
  else if strBeginsWith p "/" then p
  else pathJoin cwd p

/-- What the `__main__` block decides: terminate with an exit code and a
message (`sys.exit(msg)` prints the message and exits with status 1), or call
`run` with the validated bitness and the derived repository root. -/
inductive MainResult where
  | exit (code : Nat) (msg : String)
  | run (bitness repoRoot : String)
deriving DecidableEq, Repr

/-- The `__main__` block: argument-count check, bitness membership check
against the keys of `ASSETS`, descriptor-path suffix check, then the call to
`run`. `argv` includes the script name in position zero. -/
def mainEntry (cwd : String) (argv : List String) : MainResult :=
  match argv with
  | [_, bitness, setup_py_path] =>
    if (ASSETS.lookup bitness).isNone then
      MainResult.exit 1 ("Invalid bitness " ++ bitness ++ ": use 32 or 64.")
    else if strEndsWith setup_py_path "setup.py" = false then
      MainResult.exit 1 ("Invalid path to setup.py: " ++ setup_py_path ++ ".")
    else
      MainResult.run bitness (abspath cwd (dirname setup_py_path))
  | _ => MainResult.exit 1 "Supply bitness (32 or 64) and path to setup.py."

/-- The steps the whole program performs for a given command line: none when
the `__main__` block terminates before calling `run`, the pipeline trace
otherwise. -/
def programTrace (cwd : String) (argv : List String) (env : RunEnv) :
    List Step :=
  match mainEntry cwd argv with
  | MainResult.exit _ _ => []
  | MainResult.run bitness repoRoot => runTrace env bitness repoRoot

/-- A wheel-availability oracle for concrete examples: a wheel exists exactly
for version `1`. -/
def versionOneOracle : String → String → Bool := fun _ version => version = "1"

/-- A wheel-availability oracle for concrete examples: no wheel is ever
available. -/
def noWheelOracle : String → String → Bool := fun _ _ => false

/-- A concrete environment in which every subprocess exits with status 0 and
every network, extraction and copy operation succeeds. The frozen requirement
list is `alpha==1`, `beta==2` after the package itself is removed, the oracle
grants a wheel to `alpha==1` only, and the interpreter enumerates the
one-element set difference as `[beta==2]`. -/
def allOkEnv : RunEnv where
  workDir := "/work"
  title := "Foo"
  version := "1.2.3"
  venvExit := 0
  installExit := 0
  freezeExit := 0
  freezeText := "Foo==1.2.3\nalpha==1\nbeta==2\n"
  hasWheel := versionOneOracle
  wheelLookupOk := true
  psetEnum := fun _ _ => ["beta==2"]
  downloadOk := true
  unzipOk := true
  pynsistInstallExit := 0
  pynsistExit := 0
  copyOk := true

/-- Environment `allOkEnv`, except that the venv-creation subprocess exits
with status 1. -/
def venvFailEnv : RunEnv := { allOkEnv with venvExit := 1 }

/-- Environment `allOkEnv`, except that the freeze subprocess exits with
status 2. -/
def freezeFailEnv : RunEnv := { allOkEnv with freezeExit := 2 }

/-- Environment `allOkEnv` with no wheels, so that the set difference holds both
requirements; the interpreter enumerates it as `[alpha==1, beta==2]`. -/
def orderAEnv : RunEnv :=
  { allOkEnv with
    hasWheel := noWheelOracle
    psetEnum := fun _ _ => ["alpha==1", "beta==2"] }

/-- Identical to `orderAEnv` in every field except the set-iteration order,
which is reversed: `[beta==2, alpha==1]`. -/
def orderBEnv : RunEnv :=
  { orderAEnv with psetEnum := fun _ _ => ["beta==2", "alpha==1"] }

/-- The requirement list the pipeline computes under `orderAEnv` (and
`orderBEnv`). -/
def orderReqs : List String :=
  requirementsOf (splitlines orderAEnv.freezeText) orderAEnv.title

/-- The wheel list the pipeline computes under `orderAEnv` (and `orderBEnv`):
empty, since no wheel is available. -/
def orderWheels : List String :=
  wheels_in orderAEnv.hasWheel orderReqs

end WinInstaller

namespace WinInstaller

/-! ## Helper lemmas -/

/-- Computing `wheels_in` is the filter of the requirements by the oracle. -/
theorem wheels_in_eq_filter (hasWheel : String → String → Bool)
    (l : List String) :
    wheels_in hasWheel l =
      l.filter (fun r => hasWheel (partitionName r) (partitionVersion r)) := by
  induction l with
  | nil => rfl
  | cons r rest ih =>
    simp only [wheels_in, List.filter_cons, ih]

/-- Membership in the wheel list: an element of the input for which the
oracle reports an available wheel. -/
theorem mem_wheels_in {hasWheel : String → String → Bool} {l : List String}
    {w : String} :
    w ∈ wheels_in hasWheel l ↔
      w ∈ l ∧ hasWheel (partitionName w) (partitionVersion w) = true := by
  rw [wheels_in_eq_filter]
  simp [List.mem_filter]

/-- The name part and the dropped remainder recombine to the whole string. -/
theorem partitionBeforeChars_append_rest (l : List Char) :
    partitionBeforeChars l ++ partitionRestChars l = l := by
  induction l with
  | nil => rfl
  | cons c rest ih =>
    simp only [partitionBeforeChars, partitionRestChars]
    by_cases h : c = '=' ∧ rest.head? = some '='
    · rw [if_pos h, if_pos h]
      rfl
    · rw [if_neg h, if_neg h, List.cons_append, ih]

/-- The dropped remainder is empty or begins with the separator `==`. -/
theorem partitionRestChars_shape (l : List Char) :
    partitionRestChars l = [] ∨
      ∃ t, partitionRestChars l = '=' :: '=' :: t := by
  induction l with
  | nil => exact Or.inl rfl
  | cons c rest ih =>
    simp only [partitionRestChars]
    by_cases h : c = '=' ∧ rest.head? = some '='
    · rw [if_pos h]
      obtain ⟨hc, hh⟩ := h
      cases rest with
      | nil => simp at hh
      | cons d t =>
        simp only [List.head?_cons, Option.some.injEq] at hh
        exact Or.inr ⟨t, by rw [hc, hh]⟩
    · rw [if_neg h]
      exact ih

/-- The head of the name part is the head of the whole string. -/
theorem head?_partitionBeforeChars {l : List Char} {a : Char}
    (h : (partitionBeforeChars l).head? = some a) : l.head? = some a := by
  cases l with
  | nil => simp [partitionBeforeChars] at h
  | cons c rest =>
    simp only [partitionBeforeChars] at h
    by_cases hc : c = '=' ∧ rest.head? = some '='
    · rw [if_pos hc] at h
      simp at h
    · rw [if_neg hc] at h
      simpa using h

/-- The name part of a requirement never contains the separator `==`. -/
theorem hasDoubleEq_partitionBeforeChars (l : List Char) :
    hasDoubleEq (partitionBeforeChars l) = false := by
  induction l with
  | nil => rfl
  | cons c rest ih =>
    simp only [partitionBeforeChars]
    by_cases h : c = '=' ∧ rest.head? = some '='
    · rw [if_pos h]
      rfl
    · rw [if_neg h]
      simp only [hasDoubleEq]
      by_cases h2 : c = '=' ∧ (partitionBeforeChars rest).head? = some '='
      · exact absurd ⟨h2.1, head?_partitionBeforeChars h2.2⟩ h
      · rw [if_neg h2]
        exact ih

/-- Predicate `hasDoubleEq` detects exactly an occurrence of `==` inside. -/
theorem hasDoubleEq_eq_true_iff (l : List Char) :
    hasDoubleEq l = true ↔ ∃ s t, l = s ++ '=' :: '=' :: t := by
  induction l with
  | nil =>
    constructor
    · intro h
      simp [hasDoubleEq] at h
    · rintro ⟨s, t, hst⟩
      have hlen := congrArg List.length hst
      simp [List.length_append] at hlen
      omega
  | cons c rest ih =>
    simp only [hasDoubleEq]
    by_cases h : c = '=' ∧ rest.head? = some '='
    · rw [if_pos h]
      obtain ⟨hc, hh⟩ := h
      cases rest with
      | nil => simp at hh
      | cons d t =>
        simp only [List.head?_cons, Option.some.injEq] at hh
        simp only [true_iff]
        exact ⟨[], t, by rw [hc, hh, List.nil_append]⟩
    · rw [if_neg h, ih]
      constructor
      · rintro ⟨s, t, rfl⟩
        exact ⟨c :: s, t, rfl⟩
      · rintro ⟨s, t, hst⟩
        cases s with
        | nil =>
          simp only [List.nil_append, List.cons.injEq] at hst
          exact absurd ⟨hst.1, by rw [hst.2]; rfl⟩ h
        | cons a s' =>
          simp only [List.cons_append, List.cons.injEq] at hst
          exact ⟨s', t, hst.2⟩

/-- The characters of the name computed by `partitionName`. -/
theorem partitionName_data (s : String) :
    (partitionName s).data = partitionBeforeChars s.data := rfl

/-- The trace of the three steps up to and including the freeze attempt. -/
def freezeTrace (env : RunEnv) : List Step :=
  [Step.createVenv env.venvExit, Step.installMu env.installExit,
   Step.pipFreeze]

/-- The trace of a pipeline body that got past the wheel check and the
configuration write. -/
def cfgTrace (env : RunEnv) (bitness repoRoot : String) : List Step :=
  freezeTrace env ++
    [Step.wheelCheck, Step.writeCfg (pipelinePayload env bitness repoRoot)]

/-- The complete trace of a pipeline body that reached the final copy. -/
def fullTrace (env : RunEnv) (bitness repoRoot url : String) : List Step :=
  cfgTrace env bitness repoRoot ++
    [Step.download url,
     Step.unzipAsset (pathJoin env.workDir (lastComponent url)),
     Step.installPynsist env.pynsistInstallExit,
     Step.runPynsist env.pynsistExit,
     Step.copyInstaller
       (pathJoin (pathJoin (pathJoin env.workDir "build") "nsis")
         (installerNameOf env.title env.version bitness)) "."]

/-- Exhaustive description of the pipeline body: its seven possible outcomes,
one per exit path. -/
theorem runBody_cases (env : RunEnv) (bitness repoRoot : String) :
    (env.freezeExit ≠ 0 ∧
      runBody env bitness repoRoot =
        (freezeTrace env,
         some (RunError.calledProcessError env.freezeExit))) ∨
    (env.freezeExit = 0 ∧ env.wheelLookupOk = false ∧
      runBody env bitness repoRoot =
        (freezeTrace env ++ [Step.wheelCheck], some RunError.networkError)) ∨
    (env.freezeExit = 0 ∧ env.wheelLookupOk = true ∧
      ASSETS.lookup bitness = none ∧
      runBody env bitness repoRoot =
        (cfgTrace env bitness repoRoot, some RunError.keyError)) ∨
    (∃ url, env.freezeExit = 0 ∧ env.wheelLookupOk = true ∧
      ASSETS.lookup bitness = some url ∧ env.downloadOk = false ∧
      runBody env bitness repoRoot =
        (cfgTrace env bitness repoRoot ++ [Step.download url],
         some RunError.networkError)) ∨
    (∃ url, env.freezeExit = 0 ∧ env.wheelLookupOk = true ∧
      ASSETS.lookup bitness = some url ∧ env.downloadOk = true ∧
      env.unzipOk = false ∧
      runBody env bitness repoRoot =
        (cfgTrace env bitness repoRoot ++
          [Step.download url,
           Step.unzipAsset (pathJoin env.workDir (lastComponent url))],
         some RunError.zipError)) ∨
    (∃ url, env.freezeExit = 0 ∧ env.wheelLookupOk = true ∧
      ASSETS.lookup bitness = some url ∧ env.downloadOk = true ∧
      env.unzipOk = true ∧ env.copyOk = false ∧
      runBody env bitness repoRoot =
        (fullTrace env bitness repoRoot url, some RunError.fileNotFound)) ∨
    (∃ url, env.freezeExit = 0 ∧ env.wheelLookupOk = true ∧
      ASSETS.lookup bitness = some url ∧ env.downloadOk = true ∧
      env.unzipOk = true ∧ env.copyOk = true ∧
      runBody env bitness repoRoot =
        (fullTrace env bitness repoRoot url, none)) := by
  by_cases h1 : env.freezeExit = 0
  · by_cases h2 : env.wheelLookupOk = true
    · cases h3 : ASSETS.lookup bitness with
      | none =>
        refine Or.inr (Or.inr (Or.inl ⟨h1, h2, rfl, ?_⟩))
        simp [runBody, h1, h2, h3, cfgTrace, freezeTrace]
      | some url =>
        by_cases h4 : env.downloadOk = true
        · by_cases h5 : env.unzipOk = true
          · by_cases h6 : env.copyOk = true
            · refine Or.inr (Or.inr (Or.inr (Or.inr (Or.inr (Or.inr
                ⟨url, h1, h2, rfl, h4, h5, h6, ?_⟩)))))
              simp [runBody, h1, h2, h3, h4, h5, h6, fullTrace, cfgTrace,
                freezeTrace]
            · refine Or.inr (Or.inr (Or.inr (Or.inr (Or.inr (Or.inl
                ⟨url, h1, h2, rfl, h4, h5, by simpa using h6, ?_⟩)))))
              simp [runBody, h1, h2, h3, h4, h5, h6, fullTrace, cfgTrace,
                freezeTrace]
          · refine Or.inr (Or.inr (Or.inr (Or.inr (Or.inl
              ⟨url, h1, h2, rfl, h4, by simpa using h5, ?_⟩))))
            simp [runBody, h1, h2, h3, h4, h5, cfgTrace, freezeTrace]
        · refine Or.inr (Or.inr (Or.inr (Or.inl
            ⟨url, h1, h2, rfl, by simpa using h4, ?_⟩)))
          simp [runBody, h1, h2, h3, h4, cfgTrace, freezeTrace]
    · refine Or.inr (Or.inl ⟨h1, by simpa using h2, ?_⟩)
      simp [runBody, h1, h2, freezeTrace]
  · refine Or.inl ⟨h1, ?_⟩
    simp [runBody, h1, freezeTrace]

/-- A string is a key of `ASSETS` exactly when it is one of the two accepted
bitness literals. -/
theorem lookup_ASSETS_none {b : String} (h32 : b ≠ "32") (h64 : b ≠ "64") :
    ASSETS.lookup b = none := by
  simp only [ASSETS, List.lookup]
  rw [beq_eq_false_iff_ne.mpr h32, beq_eq_false_iff_ne.mpr h64]

/-- A string starting with a nonempty literal is nonempty. -/
theorem append_ne_empty_left (a b : String) (ha : a ≠ "") : a ++ b ≠ "" := by
  intro h
  apply ha
  have hd := congrArg String.data h
  rw [String.data_append] at hd
  have hnil : a.data = [] := (List.append_eq_nil.mp hd).1
  exact String.ext hnil

/-- The partition of the example requirement list `[alpha==1, beta==2]` under
the oracle that grants a wheel to version 1 only: `beta==2` is the one
element of the set difference. -/
theorem setDiffEnum_example :
    SetDiffEnum ["alpha==1", "beta==2"]
      (wheels_in versionOneOracle ["alpha==1", "beta==2"]) ["beta==2"] := by
  have hw : wheels_in versionOneOracle ["alpha==1", "beta==2"] = ["alpha==1"] := by
    decide
  refine ⟨by decide, fun s => ?_⟩
  rw [hw]
  simp only [List.mem_cons, List.mem_singleton, List.not_mem_nil, or_false]
  constructor
  · rintro rfl
    exact ⟨Or.inr rfl, by decide⟩
  · rintro ⟨h | h, hns⟩
    · exact absurd h hns
    · exact h

/-! ## The claims -/

/-- C8: for every oracle and requirement list, `wheels_in` returns an
order-preserving sublist (subsequence) of its input: every returned element is
an element of the input, kept in relative order, with no duplication or
rewriting of entries. -/
theorem wheels_in_sublist_of_input (hasWheel : String → String → Bool)
    (requirements : List String) :
    (wheels_in hasWheel requirements).Sublist requirements := by
  rw [wheels_in_eq_filter]
  exact List.filter_sublist requirements

/-- C6: the dependency snapshot keeps the decoded freeze lines in emission
order (it is a sublist), every kept line has a package name different from the
package title, and every line whose package name differs from the title is
kept unchanged with its multiplicity. -/
theorem freeze_snapshot_excludes_title (freezeText title : String) :
    (requirementsOf (splitlines freezeText) title).Sublist
      (splitlines freezeText) ∧
    (∀ line ∈ requirementsOf (splitlines freezeText) title,
      partitionName line ≠ title) ∧
    (∀ line : String, partitionName line ≠ title →
      (requirementsOf (splitlines freezeText) title).count line =
        (splitlines freezeText).count line) := by
  refine ⟨List.filter_sublist _, ?_, ?_⟩
  · intro line hl
    have h := List.of_mem_filter hl
    simpa using h
  · intro line hl
    exact List.count_filter (by simpa using hl)

/-- C6 witness: a concrete freeze output with the package itself pinned
first. -/
theorem freeze_snapshot_excludes_title_witness :
    (requirementsOf (splitlines "mu==1.0.0\nfoo==2.0") "mu").Sublist
      (splitlines "mu==1.0.0\nfoo==2.0") ∧
    partitionName "foo==2.0" ≠ "mu" ∧
    (requirementsOf (splitlines "mu==1.0.0\nfoo==2.0") "mu").count "foo==2.0" =
      (splitlines "mu==1.0.0\nfoo==2.0").count "foo==2.0" := by
  have h := freeze_snapshot_excludes_title "mu==1.0.0\nfoo==2.0" "mu"
  exact ⟨h.1, by decide, h.2.2 "foo==2.0" (by decide)⟩

/-- C2 (amended): when the requirement list has pairwise-distinct package
names — as `pip freeze` output does — the wheel subset and the package subset
are disjoint by package name, and their union by package name is exactly the
set of input package names. -/
theorem requirement_partition (hasWheel : String → String → Bool)
    (requirements enum : List String)
    (hnames : (requirements.map partitionName).Nodup)
    (henum : SetDiffEnum requirements (wheels_in hasWheel requirements) enum) :
    (∀ n ∈ (wheels_in hasWheel requirements).map partitionName,
      n ∉ packages_from enum) ∧
    (∀ n : String,
      (n ∈ (wheels_in hasWheel requirements).map partitionName ∨
        n ∈ packages_from enum) ↔ n ∈ requirements.map partitionName) := by
  obtain ⟨hnd, hmem⟩ := henum
  constructor
  · rintro n hn hp
    rw [List.mem_map] at hn
    obtain ⟨w, hw, rfl⟩ := hn
    rw [packages_from, List.mem_map] at hp
    obtain ⟨q, hq, hpq⟩ := hp
    obtain ⟨hqreq, hqnw⟩ := (hmem q).1 hq
    have hwreq : w ∈ requirements := (mem_wheels_in.1 hw).1
    have hqw : q = w := List.inj_on_of_nodup_map hnames hqreq hwreq hpq
    exact hqnw (hqw ▸ hw)
  · intro n
    constructor
    · rintro (hn | hn)
      · rw [List.mem_map] at hn ⊢
        obtain ⟨w, hw, rfl⟩ := hn
        exact ⟨w, (mem_wheels_in.1 hw).1, rfl⟩
      · rw [packages_from, List.mem_map] at hn
        obtain ⟨q, hq, rfl⟩ := hn
        exact List.mem_map_of_mem _ ((hmem q).1 hq).1
    · intro hn
      rw [List.mem_map] at hn
      obtain ⟨x, hx, rfl⟩ := hn
      by_cases hxw : x ∈ wheels_in hasWheel requirements
      · exact Or.inl (List.mem_map_of_mem _ hxw)
      · refine Or.inr ?_
        rw [packages_from, List.mem_map]
        exact ⟨x, (hmem x).2 ⟨hx, hxw⟩, rfl⟩

/-- C2 as stated is false: with two pins of the same package at different
versions, one with a wheel and one without, the name `foo` lands in both
subsets, so they are not disjoint. -/
theorem requirement_partition_counterexample :
    SetDiffEnum ["foo==1", "foo==2"]
      (wheels_in versionOneOracle ["foo==1", "foo==2"]) ["foo==2"] ∧
    "foo" ∈ (wheels_in versionOneOracle ["foo==1", "foo==2"]).map
      partitionName ∧
    "foo" ∈ packages_from ["foo==2"] := by
  have hw : wheels_in versionOneOracle ["foo==1", "foo==2"] = ["foo==1"] := by
    decide
  refine ⟨⟨by decide, fun s => ?_⟩, ?_, ?_⟩
  · rw [hw]
    simp only [List.mem_cons, List.mem_singleton, List.not_mem_nil, or_false]
    constructor
    · rintro rfl
      exact ⟨Or.inr rfl, by decide⟩
    · rintro ⟨h | h, hns⟩
      · exact absurd h hns
      · exact h
  · rw [hw]
    decide
  · decide

/-- C2 witness: the partition property at the concrete example list. -/
theorem requirement_partition_witness :
    ((["alpha==1", "beta==2"].map partitionName).Nodup ∧
      SetDiffEnum ["alpha==1", "beta==2"]
        (wheels_in versionOneOracle ["alpha==1", "beta==2"]) ["beta==2"]) ∧
    ((∀ n ∈ (wheels_in versionOneOracle ["alpha==1", "beta==2"]).map
        partitionName, n ∉ packages_from ["beta==2"]) ∧
      (∀ n : String,
        (n ∈ (wheels_in versionOneOracle ["alpha==1", "beta==2"]).map
          partitionName ∨ n ∈ packages_from ["beta==2"]) ↔
          n ∈ ["alpha==1", "beta==2"].map partitionName)) := by
  have h1 : (["alpha==1", "beta==2"].map partitionName).Nodup := by decide
  exact ⟨⟨h1, setDiffEnum_example⟩,
    requirement_partition versionOneOracle ["alpha==1", "beta==2"] ["beta==2"]
      h1 setDiffEnum_example⟩

/-- C1 (amended): only the `pip freeze` step, run through
`subprocess.check_output`, turns a non-zero child exit status into an
exception: the error then propagates with the exit status embedded and no
later pipeline step executes. The four steps run through `subprocess.run`
(venv creation, application install, pynsist install, pynsist invocation)
never raise on a non-zero exit status: whenever the freeze step succeeds the
pipeline proceeds past them regardless, and no subprocess exit status is ever
reported to the caller. -/
theorem freeze_only_subprocess_abort (env : RunEnv) (bitness repoRoot : String) :
    (env.freezeExit ≠ 0 →
      runError env bitness repoRoot =
        some (RunError.calledProcessError env.freezeExit) ∧
      runTrace env bitness repoRoot =
        [Step.createVenv env.venvExit, Step.installMu env.installExit,
         Step.pipFreeze, Step.removeTempDir]) ∧
    (env.freezeExit = 0 →
      Step.wheelCheck ∈ runTrace env bitness repoRoot ∧
      ∀ i : Int, runError env bitness repoRoot ≠
        some (RunError.calledProcessError i)) := by
  rcases runBody_cases env bitness repoRoot with
    ⟨hf, heq⟩ | ⟨hf, hwl, heq⟩ | ⟨hf, hwl, hlk, heq⟩ |
    ⟨url, hf, hwl, hlk, hdl, heq⟩ | ⟨url, hf, hwl, hlk, hdl, huz, heq⟩ |
    ⟨url, hf, hwl, hlk, hdl, huz, hcp, heq⟩ |
    ⟨url, hf, hwl, hlk, hdl, huz, hcp, heq⟩ <;>
  constructor <;>
  intro h <;>
  first
    | exact absurd h hf
    | exact absurd hf h
    | simp [runError, runTrace, run, heq, freezeTrace, cfgTrace, fullTrace]

/-- C1 as stated is false: here the venv-creation subprocess exits with
status 1, yet no error surfaces to the caller and every later pipeline step
(up to and including the artifact copy) still executes. -/
theorem unchecked_subprocess_counterexample :
    venvFailEnv.venvExit = 1 ∧
    runError venvFailEnv "64" "/repo" = none ∧
    Step.runPynsist 0 ∈ runTrace venvFailEnv "64" "/repo" ∧
    Step.copyInstaller "/work/build/nsis/Foo_1.2.3_win64.exe" "."
      ∈ runTrace venvFailEnv "64" "/repo" :=
  ⟨rfl, by decide, by decide, by decide⟩

/-- C1 witness: a failing freeze subprocess aborts the pipeline. -/
theorem freeze_only_subprocess_abort_witness :
    freezeFailEnv.freezeExit ≠ 0 ∧
    runError freezeFailEnv "64" "/repo" =
      some (RunError.calledProcessError 2) ∧
    runTrace freezeFailEnv "64" "/repo" =
      [Step.createVenv 0, Step.installMu 0, Step.pipFreeze,
       Step.removeTempDir] := by
  have h : freezeFailEnv.freezeExit ≠ 0 := by decide
  exact ⟨h, (freeze_only_subprocess_abort freezeFailEnv "64" "/repo").1 h⟩

/-- C3 (amended): the rendered configuration text is a function of the
descriptor values, the freeze output, the wheel-availability answers and the
set-iteration order alone; two runs agreeing on all of those (in particular,
two runs of one interpreter process) produce byte-identical configuration
content, and with identical inputs even the version and bitness fields
agree. -/
theorem payload_depends_only_on_inputs (env1 env2 : RunEnv)
    (bitness repoRoot : String)
    (ht : env1.title = env2.title) (hv : env1.version = env2.version)
    (hf : env1.freezeText = env2.freezeText)
    (hw : env1.hasWheel = env2.hasWheel)
    (hp : env1.psetEnum = env2.psetEnum) :
    pipelinePayload env1 bitness repoRoot =
      pipelinePayload env2 bitness repoRoot := by
  simp only [pipelinePayload, requirementsOf]
  rw [ht, hv, hf, hw, hp]

/-- C3 as stated is false: the two environments agree on the descriptor
values, the freeze output and the wheel answers, both set-iteration orders are
valid enumerations of the same set difference, yet the rendered configuration
files differ — and not in a version- or bitness-dependent field but in the
order of the computed `packages` lines. -/
theorem payload_set_order_counterexample :
    orderAEnv.title = orderBEnv.title ∧
    orderAEnv.version = orderBEnv.version ∧
    orderAEnv.freezeText = orderBEnv.freezeText ∧
    orderAEnv.hasWheel = orderBEnv.hasWheel ∧
    SetDiffEnum orderReqs orderWheels
      (orderAEnv.psetEnum orderReqs orderWheels) ∧
    SetDiffEnum orderReqs orderWheels
      (orderBEnv.psetEnum orderReqs orderWheels) ∧
    pipelinePayload orderAEnv "64" "/repo" ≠
      pipelinePayload orderBEnv "64" "/repo" := by
  have hr : orderReqs = ["alpha==1", "beta==2"] := by decide
  have hwl : orderWheels = [] := by decide
  refine ⟨rfl, rfl, rfl, rfl, ⟨by decide, fun s => ?_⟩,
    ⟨by decide, fun s => ?_⟩, by decide⟩
  · rw [hr, hwl]
    show s ∈ ["alpha==1", "beta==2"] ↔
      s ∈ ["alpha==1", "beta==2"] ∧ s ∉ ([] : List String)
    simp only [List.mem_cons, List.not_mem_nil, or_false]
    tauto
  · rw [hr, hwl]
    show s ∈ ["beta==2", "alpha==1"] ↔
      s ∈ ["alpha==1", "beta==2"] ∧ s ∉ ([] : List String)
    simp only [List.mem_cons, List.not_mem_nil, or_false]
    tauto

/-- C3 witness: environments differing only in a subprocess exit status
render identical configuration text. -/
theorem payload_depends_only_on_inputs_witness :
    allOkEnv.title = venvFailEnv.title ∧
    allOkEnv.version = venvFailEnv.version ∧
    allOkEnv.freezeText = venvFailEnv.freezeText ∧
    allOkEnv.hasWheel = venvFailEnv.hasWheel ∧
    allOkEnv.psetEnum = venvFailEnv.psetEnum ∧
    pipelinePayload allOkEnv "64" "/repo" =
      pipelinePayload venvFailEnv "64" "/repo" :=
  ⟨rfl, rfl, rfl, rfl, rfl,
    payload_depends_only_on_inputs allOkEnv venvFailEnv "64" "/repo"
      rfl rfl rfl rfl rfl⟩

/-- C4: a wrong argument count, a bitness other than the literals `32` and
`64`, or a descriptor path not ending in `setup.py` makes the entry point
exit immediately with status 1 and a nonempty message, and the program then
performs no step at all — in particular no network request and no subprocess
spawn. -/
theorem invalid_cli_rejected (cwd : String) (argv : List String)
    (h : argv.length ≠ 3 ∨
      ∃ s b p, argv = [s, b, p] ∧
        ((b ≠ "32" ∧ b ≠ "64") ∨ strEndsWith p "setup.py" = false)) :
    (∃ msg, mainEntry cwd argv = MainResult.exit 1 msg ∧ msg ≠ "") ∧
    ∀ env : RunEnv, programTrace cwd argv env = [] := by
  have hexit : ∃ msg, mainEntry cwd argv = MainResult.exit 1 msg ∧ msg ≠ "" := by
    rcases h with hlen | ⟨s, b, p, rfl, hbad⟩
    · rcases argv with _ | ⟨a1, _ | ⟨a2, _ | ⟨a3, _ | ⟨a4, rest⟩⟩⟩⟩
      · exact ⟨_, rfl, by decide⟩
      · exact ⟨_, rfl, by decide⟩
      · exact ⟨_, rfl, by decide⟩
      · simp at hlen
      · exact ⟨_, rfl, by decide⟩
    · rcases hbad with ⟨h32, h64⟩ | hsfx
      · have hlk : ASSETS.lookup b = none := lookup_ASSETS_none h32 h64
        refine ⟨"Invalid bitness " ++ b ++ ": use 32 or 64.", ?_,
          append_ne_empty_left _ _ (append_ne_empty_left _ _ (by decide))⟩
        simp [mainEntry, hlk]
      · by_cases hlk : (ASSETS.lookup b).isNone = true
        · refine ⟨"Invalid bitness " ++ b ++ ": use 32 or 64.", ?_,
            append_ne_empty_left _ _ (append_ne_empty_left _ _ (by decide))⟩
          simp [mainEntry, hlk]
        · refine ⟨"Invalid path to setup.py: " ++ p ++ ".", ?_,
            append_ne_empty_left _ _ (append_ne_empty_left _ _ (by decide))⟩
          simp [mainEntry, hlk, hsfx]
  refine ⟨hexit, fun env => ?_⟩
  obtain ⟨msg, hm, _⟩ := hexit
  simp [programTrace, hm]

/-- C4 witness: bitness `16` is rejected and nothing runs. -/
theorem invalid_cli_rejected_witness :
    (∃ msg, mainEntry "/cwd" ["win_installer.py", "16", "x/setup.py"] =
      MainResult.exit 1 msg ∧ msg ≠ "") ∧
    programTrace "/cwd" ["win_installer.py", "16", "x/setup.py"]
      allOkEnv = [] := by
  have h := invalid_cli_rejected "/cwd" ["win_installer.py", "16", "x/setup.py"]
    (Or.inr ⟨"win_installer.py", "16", "x/setup.py", rfl,
      Or.inl ⟨by decide, by decide⟩⟩)
  exact ⟨h.1, h.2 allOkEnv⟩

/-- C5: the installer artifact name is exactly
`name + _ + version + _win + bitness + .exe`, and on a successful run the
pipeline copies the file of that name out of the builder output directory
into the current working directory `.`. -/
theorem installer_artifact_name (env : RunEnv) (bitness repoRoot : String)
    (h : runError env bitness repoRoot = none) :
    installerNameOf env.title env.version bitness =
      env.title ++ "_" ++ env.version ++ "_win" ++ bitness ++ ".exe" ∧
    Step.copyInstaller
      (pathJoin (pathJoin (pathJoin env.workDir "build") "nsis")
        (env.title ++ "_" ++ env.version ++ "_win" ++ bitness ++ ".exe")) "."
      ∈ runTrace env bitness repoRoot := by
  refine ⟨rfl, ?_⟩
  rcases runBody_cases env bitness repoRoot with
    ⟨hf, heq⟩ | ⟨hf, hwl, heq⟩ | ⟨hf, hwl, hlk, heq⟩ |
    ⟨url, hf, hwl, hlk, hdl, heq⟩ | ⟨url, hf, hwl, hlk, hdl, huz, heq⟩ |
    ⟨url, hf, hwl, hlk, hdl, huz, hcp, heq⟩ |
    ⟨url, hf, hwl, hlk, hdl, huz, hcp, heq⟩ <;>
  simp [runError, run, heq] at h <;>
  simp [runTrace, run, heq, fullTrace, cfgTrace, freezeTrace,
    installerNameOf]

/-- C5 witness: descriptor values `Foo`, `1.2.3` and bitness `64` yield the
artifact `Foo_1.2.3_win64.exe`, copied to `.`. -/
theorem installer_artifact_name_witness :
    runError allOkEnv "64" "/repo" = none ∧
    installerNameOf allOkEnv.title allOkEnv.version "64" =
      "Foo_1.2.3_win64.exe" ∧
    Step.copyInstaller
      (pathJoin (pathJoin (pathJoin allOkEnv.workDir "build") "nsis")
        ("Foo" ++ "_" ++ "1.2.3" ++ "_win" ++ "64" ++ ".exe")) "."
      ∈ runTrace allOkEnv "64" "/repo" := by
  have h : runError allOkEnv "64" "/repo" = none := by decide
  exact ⟨h, by decide, (installer_artifact_name allOkEnv "64" "/repo" h).2⟩

/-- C7: on every exit path — normal completion or a propagated error from any
step — the temporary working directory is removed exactly once, as the very
last step of the trace; and on success the installer artifact has been copied
out of the work directory before that cleanup. -/
theorem tempdir_cleanup (env : RunEnv) (bitness repoRoot : String) :
    (runTrace env bitness repoRoot).getLast? = some Step.removeTempDir ∧
    Step.removeTempDir ∉ (runTrace env bitness repoRoot).dropLast ∧
    (runError env bitness repoRoot = none →
      Step.copyInstaller
        (pathJoin (pathJoin (pathJoin env.workDir "build") "nsis")
          (installerNameOf env.title env.version bitness)) "."
        ∈ (runTrace env bitness repoRoot).dropLast) := by
  have hT : runTrace env bitness repoRoot =
      (runBody env bitness repoRoot).1 ++ [Step.removeTempDir] := rfl
  have hE : runError env bitness repoRoot =
      (runBody env bitness repoRoot).2 := rfl
  simp only [hT, hE, List.getLast?_concat, List.dropLast_concat]
  rcases runBody_cases env bitness repoRoot with
    ⟨hf, heq⟩ | ⟨hf, hwl, heq⟩ | ⟨hf, hwl, hlk, heq⟩ |
    ⟨url, hf, hwl, hlk, hdl, heq⟩ | ⟨url, hf, hwl, hlk, hdl, huz, heq⟩ |
    ⟨url, hf, hwl, hlk, hdl, huz, hcp, heq⟩ |
    ⟨url, hf, hwl, hlk, hdl, huz, hcp, heq⟩ <;>
  rw [heq] <;>
  refine ⟨trivial, ?_, ?_⟩ <;>
  simp [freezeTrace, cfgTrace, fullTrace]

/-- C7 witness: a successful run copies the artifact before the cleanup. -/
theorem tempdir_cleanup_witness :
    runError allOkEnv "64" "/repo" = none ∧
    Step.copyInstaller
      (pathJoin (pathJoin (pathJoin allOkEnv.workDir "build") "nsis")
        (installerNameOf allOkEnv.title allOkEnv.version "64")) "."
      ∈ (runTrace allOkEnv "64" "/repo").dropLast :=
  ⟨by decide, (tempdir_cleanup allOkEnv "64" "/repo").2.2 (by decide)⟩

/-- C9: whenever the command-line entry point decides to call `run`, the
chosen bitness is a key of `ASSETS`, so the `ASSETS[bitness]` lookup inside
`run` cannot fail: no environment makes the pipeline propagate a `KeyError`. -/
theorem asset_lookup_safe (cwd : String) (argv : List String)
    (bitness repoRoot : String)
    (h : mainEntry cwd argv = MainResult.run bitness repoRoot) :
    (ASSETS.lookup bitness).isSome = true ∧
    ∀ env : RunEnv, runError env bitness repoRoot ≠ some RunError.keyError := by
  have hsome : (ASSETS.lookup bitness).isSome = true := by
    rcases argv with _ | ⟨a1, _ | ⟨a2, _ | ⟨a3, _ | ⟨a4, rest⟩⟩⟩⟩
    · simp [mainEntry] at h
    · simp [mainEntry] at h
    · simp [mainEntry] at h
    · simp only [mainEntry] at h
      by_cases hlk : (ASSETS.lookup a2).isNone = true
      · rw [if_pos hlk] at h
        simp at h
      · rw [if_neg hlk] at h
        by_cases hsfx : strEndsWith a3 "setup.py" = false
        · rw [if_pos hsfx] at h
          simp at h
        · rw [if_neg hsfx] at h
          injection h with h1 h2
          rw [← h1]
          cases hopt : ASSETS.lookup a2 with
          | none => exact absurd (by rw [hopt]; rfl) hlk
          | some v => rfl
    · simp [mainEntry] at h
  refine ⟨hsome, fun env => ?_⟩
  rcases runBody_cases env bitness repoRoot with
    ⟨hf, heq⟩ | ⟨hf, hwl, heq⟩ | ⟨hf, hwl, hlk, heq⟩ |
    ⟨url, hf, hwl, hlk2, hdl, heq⟩ | ⟨url, hf, hwl, hlk2, hdl, huz, heq⟩ |
    ⟨url, hf, hwl, hlk2, hdl, huz, hcp, heq⟩ |
    ⟨url, hf, hwl, hlk2, hdl, huz, hcp, heq⟩ <;>
  simp only [runError, run, heq] <;>
  first
    | (rw [hlk] at hsome; exact absurd hsome (by simp))
    | simp

/-- C9 witness: a valid command line reaches `run` with bitness `64`, a key
of `ASSETS`; no `KeyError` is possible. -/
theorem asset_lookup_safe_witness :
    mainEntry "/cwd" ["win_installer.py", "64", "x/setup.py"] =
      MainResult.run "64" "/cwd/x" ∧
    (ASSETS.lookup "64").isSome = true ∧
    runError allOkEnv "64" "/cwd/x" ≠ some RunError.keyError := by
  have hm : mainEntry "/cwd" ["win_installer.py", "64", "x/setup.py"] =
      MainResult.run "64" "/cwd/x" := by decide
  have h := asset_lookup_safe "/cwd" ["win_installer.py", "64", "x/setup.py"]
    "64" "/cwd/x" hm
  exact ⟨hm, h.1, h.2 allOkEnv⟩

/-- C10: the two subsets are rendered in different shapes: every wheel entry
is an unmodified `name==version` requirement string of the input, while every
computed package entry is the bare package name of a non-wheel requirement —
the prefix of that requirement obtained by stripping everything from the
first `==` onward, and itself containing no `==` occurrence. -/
theorem rendering_shapes (hasWheel : String → String → Bool)
    (requirements enum : List String)
    (henum : SetDiffEnum requirements (wheels_in hasWheel requirements) enum) :
    (∀ w ∈ wheels_in hasWheel requirements, w ∈ requirements) ∧
    (∀ p ∈ packages_from enum, ∃ q,
      q ∈ requirements ∧ q ∉ wheels_in hasWheel requirements ∧
      p = partitionName q ∧
      q.data = p.data ++ partitionRestChars q.data ∧
      (partitionRestChars q.data = [] ∨
        ∃ t, partitionRestChars q.data = '=' :: '=' :: t) ∧
      hasDoubleEq p.data = false) := by
  obtain ⟨hnd, hmem⟩ := henum
  refine ⟨fun w hw => (mem_wheels_in.1 hw).1, fun p hp => ?_⟩
  rw [packages_from, List.mem_map] at hp
  obtain ⟨q, hq, rfl⟩ := hp
  obtain ⟨hq1, hq2⟩ := (hmem q).1 hq
  refine ⟨q, hq1, hq2, rfl, ?_, partitionRestChars_shape q.data, ?_⟩
  · rw [partitionName_data]
    exact (partitionBeforeChars_append_rest q.data).symm
  · rw [partitionName_data]
    exact hasDoubleEq_partitionBeforeChars q.data

/-- C10 witness: `alpha==1` is rendered as a full pin; `beta==2` is rendered
in the packages section as the bare name `beta`. -/
theorem rendering_shapes_witness :
    SetDiffEnum ["alpha==1", "beta==2"]
      (wheels_in versionOneOracle ["alpha==1", "beta==2"]) ["beta==2"] ∧
    "alpha==1" ∈ ["alpha==1", "beta==2"] ∧
    (∃ q, q ∈ ["alpha==1", "beta==2"] ∧
      q ∉ wheels_in versionOneOracle ["alpha==1", "beta==2"] ∧
      partitionName "beta==2" = partitionName q ∧
      q.data = (partitionName "beta==2").data ++ partitionRestChars q.data ∧
      (partitionRestChars q.data = [] ∨
        ∃ t, partitionRestChars q.data = '=' :: '=' :: t) ∧
      hasDoubleEq (partitionName "beta==2").data = false) := by
  have h := rendering_shapes versionOneOracle ["alpha==1", "beta==2"]
    ["beta==2"] setDiffEnum_example
  exact ⟨setDiffEnum_example, h.1 "alpha==1" (by decide),
    h.2 (partitionName "beta==2") (by decide)⟩

end WinInstaller
